import Mathlib

/-!
# Verification of the network scanner core (src/scanner.py)

A shallow embedding of the scanning engine in `src/scanner.py`.
Python strings are modelled as `List Char`; a Python exception escaping a
function is modelled as `none` in an `Option` result.  External effects
(the network, the `nmap` binary, the ARP cache, reverse DNS) are passed in
as explicit function parameters, so every definition is executable.
-/

namespace Scanner

/-! ## Python string primitives

`str.strip`, `str.split(sep)`, `str.splitlines`, `sep.join`, `int(...)`
and `str(n)` as they are used by scanner.py. -/

/-- The whitespace characters recognised by Python's `str.strip`. -/
def pyIsSpace (c : Char) : Bool :=
  c = ' ' || c = '\t' || c = '\n' || c = '\r' ||
    c = Char.ofNat 11 || c = Char.ofNat 12

/-- Python `s.strip()`: remove leading and trailing whitespace. -/
def pyStrip (cs : List Char) : List Char :=
  ((cs.dropWhile pyIsSpace).reverse.dropWhile pyIsSpace).reverse

/-- Python `s.split(sep)` for a single-character separator: the pieces of
`cs` between occurrences of `sep`.  Like Python, it never returns an empty
list (`"".split(sep) == [""]`). -/
def splitOnChar (sep : Char) : List Char → List (List Char)
  | [] => [[]]
  | c :: cs =>
    if c = sep then [] :: splitOnChar sep cs
    else
      match splitOnChar sep cs with
      | [] => [[c]]
      | t :: ts => (c :: t) :: ts

/-- Python `sep.join(parts)`. -/
def pyJoin (sep : List Char) : List (List Char) → List Char
  | [] => []
  | [p] => p
  | p :: ps => p ++ sep ++ pyJoin sep ps

/-- Python `s.splitlines()` restricted to `'\n'` line breaks (the only line
break occurring in the texts this development manipulates). -/
def splitlines (cs : List Char) : List (List Char) :=
  if cs.isEmpty then []
  else
    let pieces := splitOnChar '\n' cs
    if (pieces.getLastD []).isEmpty then pieces.dropLast else pieces

/-- Is `c` one of `'0'` .. `'9'`? -/
def isDigitChar (c : Char) : Bool := '0' ≤ c && c ≤ '9'

/-- Numeric value of a digit character. -/
def digitVal (c : Char) : Nat := c.toNat - 48

/-- Value of a string of digit characters, most significant first. -/
def natOfDigits (cs : List Char) : Nat :=
  cs.foldl (fun a c => a * 10 + digitVal c) 0

/-- Python `int(s)` on a digit string: `none` models the `ValueError`
raised on a non-digit input.  (Python's `int` also tolerates surrounding
whitespace, which the callers below strip explicitly first.) -/
def parseNat (cs : List Char) : Option Nat :=
  if !cs.isEmpty && cs.all isDigitChar then some (natOfDigits cs) else none

/-- Python `int(s)` on an optionally sign-prefixed digit string. -/
def parseInt (cs : List Char) : Option Int :=
  match cs with
  | '-' :: rest => (parseNat rest).map (fun n => -(n : Int))
  | '+' :: rest => (parseNat rest).map (fun n => (n : Int))
  | _ => (parseNat cs).map (fun n => (n : Int))

/-- The digit character for `d < 10`. -/
def digitChar (d : Nat) : Char := Char.ofNat (48 + d)

/-- Digits of `n`, least significant first; `fuel` bounds the recursion
(any `fuel ≥ n` gives the true digit list). -/
def natToCharsAux : Nat → Nat → List Char
  | 0, _ => []
  | fuel + 1, n =>
    if n = 0 then [] else digitChar (n % 10) :: natToCharsAux fuel (n / 10)

/-- Python `str(n)` for a natural number `n`. -/
def natToChars (n : Nat) : List Char :=
  if n = 0 then ['0'] else (natToCharsAux n n).reverse

/-! ## Data models (src/scanner.py, `PortInfo` / `HostInfo`) -/

/-- A single open port and its optionally detected service name
(src/scanner.py:35-40). -/
structure PortInfo where
  port : Nat
  proto : List Char := ['t', 'c', 'p']
  service : Option (List Char) := none
deriving DecidableEq

/-- A discovered host and the collected scan information
(src/scanner.py:43-50). -/
structure HostInfo where
  ip : List Char
  mac : Option (List Char) := none
  hostname : Option (List Char) := none
  os : Option (List Char) := none
  open_ports : List PortInfo := []
deriving DecidableEq

/-! ## Target expansion (src/scanner.py, `expand_range`) -/

/-- Embeds `expand_range` (src/scanner.py:89-98).  A Python exception
escaping (a failed two-element unpacking of `split("-")`, or `ValueError`
from `int`) is `none`.  The source performs
`left, right = ip_range.split("-")`, takes all but the last dot-field of
`left` as the base, parses the last dot-field and `right` as integers, and
returns `[f"{base}.{i}" for i in range(start, end + 1)]`. -/
def expand_range (ip_range : List Char) : Option (List (List Char)) :=
  match splitOnChar '-' ip_range with
  | [left, right] =>
    let parts := splitOnChar '.' left
    let base := pyJoin ['.'] parts.dropLast
    match parseNat (parts.getLastD []), parseNat right with
    | some start, some stop =>
      some ((List.range' start (stop + 1 - start)).map
        (fun i => base ++ '.' :: natToChars i))
    | _, _ => none
  | _ => none

/-- Numeric last dot-field of an address string, used to state ordering
properties of `expand_range` results. -/
def lastOctet (addr : List Char) : Option Nat :=
  parseNat ((splitOnChar '.' addr).getLastD [])

/-! ## Port-spec parsing (src/scanner.py, `parse_ports`) -/

/-- The comma-branch loop of `parse_ports`: strip each token, skip empty
tokens, parse the rest with `int`; the first failing token raises
(= `none`). -/
def parseTokens : List (List Char) → Option (List Int)
  | [] => some []
  | t :: ts =>
    let t' := pyStrip t
    if t'.isEmpty then parseTokens ts
    else
      match parseInt t', parseTokens ts with
      | some v, some vs => some (v :: vs)
      | _, _ => none

/-- Python `list(range(a, b + 1))` over integers. -/
def intRange (a b : Int) : List Int :=
  (List.range (b + 1 - a).toNat).map (fun i => a + i)

/-- Embeds `parse_ports` (src/scanner.py:110-134).  Comma form: split on
`','`, strip, skip empty tokens, parse each with `int`, then
`sorted(set(out))`.  Dash form: two `int` tokens, swapped when reversed,
expanded to the inclusive range.  Single form: one `int`.  A `ValueError`
from `int` or a failed unpacking is `none`. -/
def parse_ports (ports0 : List Char) : Option (List Int) :=
  let ports := pyStrip ports0
  if ports.contains ',' then
    (parseTokens (splitOnChar ',' ports)).map
      (fun out => List.insertionSort (· ≤ ·) out.dedup)
  else if ports.contains '-' then
    match splitOnChar '-' ports with
    | [a, b] =>
      match parseInt (pyStrip a), parseInt (pyStrip b) with
      | some ai, some bi =>
        if bi < ai then some (intRange bi ai) else some (intRange ai bi)
      | _, _ => none
    | _ => none
  else
    (parseInt ports).map (fun n => [n])

/-! ## Liveness probe (src/scanner.py, `is_host_up`) -/

/-- Outcome of one TCP connect attempt, as distinguished by the spec:
either the connection is established, actively refused, or it fails with
a timeout / unreachable-network / host-down signal. -/
inductive ConnectOutcome where
  | established
  | refused
  | timedOut
  | unreachable
  | hostDown
deriving DecidableEq

/-- The `socket.connect_ex` result code the source inspects for each
outcome, on the platform the source documents (src/scanner.py:161:
"0=open, 10061=refused on Windows"); the failure codes are the WinSock
`WSAETIMEDOUT`, `WSAEHOSTUNREACH` and `WSAEHOSTDOWN` errnos. -/
def connect_ex_code : ConnectOutcome → Int
  | .established => 0
  | .refused => 10061
  | .timedOut => 10060
  | .unreachable => 10065
  | .hostDown => 10064

/-- The fixed probe-port list of `is_host_up` (src/scanner.py:155). -/
def common_ports : List Nat := [80, 443, 22, 445, 3389]

/-- The probe loop of `is_host_up`: early `return True` when the connect
result is 0 or 10061, otherwise move on to the next port; `False` after
the last port. -/
def probe_ports (transport : Nat → ConnectOutcome) : List Nat → Bool
  | [] => false
  | port :: rest =>
    let res := connect_ex_code (transport port)
    if res = 0 ∨ res = 10061 then true else probe_ports transport rest

/-- Embeds `is_host_up` (src/scanner.py:149-166); `transport` gives the
outcome of the connect attempt to each probe port. -/
def is_host_up (transport : Nat → ConnectOutcome) : Bool :=
  probe_ports transport common_ports

/-! ## Port scanning (src/scanner.py, `scan_tcp_ports`) -/

/-- Embeds `scan_tcp_ports` (src/scanner.py:207-223).  The thread pool is
modelled by two parameters: `isOpen` gives the result of `_check_port`
for each port, and `completion` is the order in which `as_completed`
yields the attempts (any permutation of `ports`).  The first component of
the result is the returned list of open ports; the second is the list of
ports for which a connect attempt was submitted to the pool, so that
"no work is spawned" is observable.  `ip`, `timeout` and `workers` only
flow into the network attempts and the pool size, as in the source. -/
def scan_tcp_ports (ip : List Char) (ports : List Nat) (timeout : Rat)
    (workers : Nat) (isOpen : Nat → Bool) (completion : List Nat) :
    List Nat × List Nat :=
  if ports.isEmpty then ([], [])
  else
    let _max_workers := min workers (max 1 ports.length)
    let open_ports := completion.filter isOpen
    (List.insertionSort (· ≤ ·) open_ports, ports)

/-! ## Nmap fingerprinting (src/scanner.py, `nmap_service_and_os`) -/

/-- Match Python's `\s*(.+)` at the start of the text and return the
(greedy) group: skip as much whitespace as possible while at least one
non-newline character can still follow, then take the run of non-newline
characters. -/
def matchWsDotPlus : List Char → Option (List Char)
  | [] => none
  | c :: cs =>
    if pyIsSpace c then
      match matchWsDotPlus cs with
      | some g => some g
      | none =>
        if c = '\n' then none
        else some (List.takeWhile (fun x => x ≠ '\n') (c :: cs))
    else some (List.takeWhile (fun x => x ≠ '\n') (c :: cs))

/-- Python `re.search(lit + r"\s*(.+)", hay)` returning `group(1)`: try
the pattern at every position, leftmost match first. -/
def reSearchLitWsRest (lit : List Char) : List Char → Option (List Char)
  | [] => none
  | c :: cs =>
    if lit.isPrefixOf (c :: cs) then
      match matchWsDotPlus ((c :: cs).drop lit.length) with
      | some g => some g
      | none => reSearchLitWsRest lit cs
    else reSearchLitWsRest lit cs

/-- Does `lit` occur as a contiguous run inside `hay`? -/
def containsSeq (lit : List Char) : List Char → Bool
  | [] => lit.isEmpty
  | c :: cs => lit.isPrefixOf (c :: cs) || containsSeq lit cs

/-- Python `re.match(r"^(\d+)\/tcp\s+open\s+([^\s]+)", line)`: a digit
run, the literal `/tcp`, whitespace, the literal `open`, whitespace, and
a non-whitespace service name.  Each quantifier here is deterministic:
every greedy run is followed by a character that cannot extend it. -/
def matchServiceLine (line : List Char) : Option (Nat × List Char) :=
  let digits := line.takeWhile isDigitChar
  if digits.isEmpty then none
  else
    let rest1 := line.drop digits.length
    if ['/', 't', 'c', 'p'].isPrefixOf rest1 then
      let rest2 := rest1.drop 4
      let ws1 := rest2.takeWhile pyIsSpace
      if ws1.isEmpty then none
      else
        let rest3 := rest2.drop ws1.length
        if ['o', 'p', 'e', 'n'].isPrefixOf rest3 then
          let rest4 := rest3.drop 4
          let ws2 := rest4.takeWhile pyIsSpace
          if ws2.isEmpty then none
          else
            let rest5 := rest4.drop ws2.length
            let svc := rest5.takeWhile (fun c => !pyIsSpace c)
            if svc.isEmpty then none else some (natOfDigits digits, svc)
        else none
    else none

/-- Embeds `nmap_service_and_os` (src/scanner.py:235-275).  The external
world enters through two parameters: `nmap_path` is `shutil.which("nmap")`
and `run_stdout` is the stdout of the `subprocess.run` invocation, with
`none` modelling the exception branch (timeout, spawn failure).  The
result pairs the value the source returns with a flag recording whether
the nmap binary was invoked at all. -/
def nmap_service_and_os (open_ports : List Nat)
    (nmap_path : Option (List Char)) (run_stdout : Option (List Char)) :
    (Option (List Char) × List (Nat × List Char)) × Bool :=
  if open_ports.isEmpty then ((none, []), false)
  else
    match nmap_path with
    | none => ((none, []), false)
    | some _ =>
      match run_stdout with
      | none => ((none, []), true)
      | some out =>
        let os_guess :=
          match reSearchLitWsRest "OS details:".data out with
          | some g => some (pyStrip g)
          | none =>
            match reSearchLitWsRest "Running:".data out with
            | some g => some (pyStrip g)
            | none => none
        let service_map :=
          (splitlines out).filterMap (fun line => matchServiceLine (pyStrip line))
        ((os_guess, service_map), true)

/-! ## Result aggregation (src/scanner.py, `main`) -/

/-- The service-join loop in `main` (src/scanner.py:343-349): the first
entry of `svc_map` whose port matches, if any. -/
def find_service (svc_map : List (Nat × List Char)) (port : Nat) :
    Option (List Char) :=
  (svc_map.find? (fun pr => pr.1 == port)).map (fun pr => pr.2)

/-- Embeds the per-target loop of `main` (src/scanner.py:323-351).  The
external collaborators are parameters: `validIp` is the
`ipaddress.ip_address` syntax check, `up` the liveness probe, `hostnameOf`
reverse DNS, `scanOf` the open-port scan for the target, `macOf` the ARP
lookup, and `fingerprint` the nmap collaborator.  A target that fails the
syntax check or the liveness probe is skipped (`continue`); otherwise a
`HostInfo` is built and appended. -/
def process_targets (targets : List (List Char))
    (validIp : List Char → Bool) (up : List Char → Bool)
    (hostnameOf : List Char → Option (List Char))
    (scanOf : List Char → List Nat)
    (macOf : List Char → Option (List Char))
    (fingerprint : List Char → List Nat →
      Option (List Char) × List (Nat × List Char)) : List HostInfo :=
  match targets with
  | [] => []
  | ip :: rest =>
    if validIp ip = false then
      process_targets rest validIp up hostnameOf scanOf macOf fingerprint
    else if up ip = false then
      process_targets rest validIp up hostnameOf scanOf macOf fingerprint
    else
      let open_list := scanOf ip
      let fp := fingerprint ip open_list
      let host : HostInfo :=
        { ip := ip
          mac := macOf ip
          hostname := hostnameOf ip
          os := fp.1
          open_ports := open_list.map
            (fun port => { port := port, service := find_service fp.2 port }) }
      host :: process_targets rest validIp up hostnameOf scanOf macOf fingerprint

/-- The fingerprint collaborator is unavailable: `shutil.which` finds no
nmap binary, or the `subprocess.run` invocation raises (timeout, spawn
failure), or its stdout is unparseable — none of the markers `OS details:`
and `Running:` occurs in it and no stripped line matches the service-line
pattern. -/
def nmap_unavailable (nmap_path run_stdout : Option (List Char)) : Prop :=
  nmap_path = none ∨ run_stdout = none ∨
    ∀ out, run_stdout = some out →
      containsSeq "OS details:".data out = false ∧
      containsSeq "Running:".data out = false ∧
      (splitlines out).all
        (fun line => (matchServiceLine (pyStrip line)).isNone) = true

/-! ### Lemmas about the string primitives -/

theorem natToCharsAux_zero (fuel : Nat) : natToCharsAux fuel 0 = [] := by
  cases fuel <;> simp [natToCharsAux]

theorem natToCharsAux_fuel (fuel fuel' n : Nat) (h : n ≤ fuel) (h' : n ≤ fuel') :
    natToCharsAux fuel n = natToCharsAux fuel' n := by
  induction n using Nat.strong_induction_on generalizing fuel fuel' with
  | _ n ih =>
    rcases Nat.eq_zero_or_pos n with hn | hn
    · subst hn; rw [natToCharsAux_zero, natToCharsAux_zero]
    · obtain ⟨f, rfl⟩ : ∃ f, fuel = f + 1 :=
        ⟨fuel - 1, by omega⟩
      obtain ⟨g, rfl⟩ : ∃ g, fuel' = g + 1 :=
        ⟨fuel' - 1, by omega⟩
      have hdiv : n / 10 < n := Nat.div_lt_self hn (by norm_num)
      simp only [natToCharsAux, if_neg (Nat.pos_iff_ne_zero.mp hn)]
      rw [ih (n / 10) hdiv f g (by omega) (by omega)]

theorem natToChars_lt_ten (n : Nat) (h : n < 10) : natToChars n = [digitChar n] := by
  rcases Nat.eq_zero_or_pos n with hn | hn
  · subst hn
    have : digitChar 0 = '0' := by decide
    simp [natToChars, this]
  · have hne : n ≠ 0 := Nat.pos_iff_ne_zero.mp hn
    obtain ⟨f, hf⟩ : ∃ f, n = f + 1 := ⟨n - 1, by omega⟩
    have hdiv : n / 10 = 0 := Nat.div_eq_of_lt h
    have hmod : n % 10 = n := Nat.mod_eq_of_lt h
    simp only [natToChars, if_neg hne, hf]
    simp [natToCharsAux, hf.symm, hne, hdiv, hmod, natToCharsAux_zero]

theorem natToChars_ge_ten (n : Nat) (h : 10 ≤ n) :
    natToChars n = natToChars (n / 10) ++ [digitChar (n % 10)] := by
  have hne : n ≠ 0 := by omega
  have hdivne : n / 10 ≠ 0 := by
    have := Nat.div_le_div_right (c := 10) h
    simpa using Nat.pos_iff_ne_zero.mp (by omega : 0 < n / 10)
  obtain ⟨f, hf⟩ : ∃ f, n = f + 1 := ⟨n - 1, by omega⟩
  have hdivlt : n / 10 < n := Nat.div_lt_self (by omega) (by norm_num)
  calc natToChars n = (natToCharsAux n n).reverse := by
        simp [natToChars, hne]
    _ = (digitChar (n % 10) :: natToCharsAux f (n / 10)).reverse := by
        rw [hf]; simp [natToCharsAux, hf.symm, hne]
    _ = (natToCharsAux f (n / 10)).reverse ++ [digitChar (n % 10)] := by
        simp
    _ = (natToCharsAux (n / 10) (n / 10)).reverse ++ [digitChar (n % 10)] := by
        rw [natToCharsAux_fuel f (n / 10) (n / 10) (by omega) (le_refl _)]
    _ = natToChars (n / 10) ++ [digitChar (n % 10)] := by
        simp [natToChars, hdivne]

theorem isDigitChar_digitChar (d : Nat) (h : d < 10) :
    isDigitChar (digitChar d) = true := by
  interval_cases d <;> decide

theorem digitVal_digitChar (d : Nat) (h : d < 10) : digitVal (digitChar d) = d := by
  interval_cases d <;> decide

theorem natToChars_ne_nil (n : Nat) : natToChars n ≠ [] := by
  rcases Nat.lt_or_ge n 10 with h | h
  · rw [natToChars_lt_ten n h]; simp
  · rw [natToChars_ge_ten n h]; simp

theorem natToChars_all_digits (n : Nat) : (natToChars n).all isDigitChar = true := by
  induction n using Nat.strong_induction_on with
  | _ n ih =>
    rcases Nat.lt_or_ge n 10 with h | h
    · rw [natToChars_lt_ten n h]
      simp [isDigitChar_digitChar n h]
    · rw [natToChars_ge_ten n h]
      have hdivlt : n / 10 < n := Nat.div_lt_self (by omega) (by norm_num)
      simp only [List.all_append]
      rw [ih (n / 10) hdivlt]
      simp [isDigitChar_digitChar (n % 10) (Nat.mod_lt n (by norm_num))]

theorem natOfDigits_natToChars (n : Nat) : natOfDigits (natToChars n) = n := by
  induction n using Nat.strong_induction_on with
  | _ n ih =>
    rcases Nat.lt_or_ge n 10 with h | h
    · rw [natToChars_lt_ten n h]
      simp [natOfDigits, digitVal_digitChar n h]
    · rw [natToChars_ge_ten n h]
      have hdivlt : n / 10 < n := Nat.div_lt_self (by omega) (by norm_num)
      simp only [natOfDigits, List.foldl_append, List.foldl_cons, List.foldl_nil]
      have hpre : (natToChars (n / 10)).foldl (fun a c => a * 10 + digitVal c) 0 = n / 10 :=
        ih (n / 10) hdivlt
      rw [hpre, digitVal_digitChar (n % 10) (Nat.mod_lt n (by norm_num))]
      omega

theorem parseNat_natToChars (n : Nat) : parseNat (natToChars n) = some n := by
  have h1 := natToChars_ne_nil n
  have h2 := natToChars_all_digits n
  have h3 := natOfDigits_natToChars n
  simp only [parseNat, h2, Bool.and_true]
  rw [if_pos (by simp [List.isEmpty_iff, h1]), h3]

theorem not_mem_natToChars_of_not_digit (c : Char) (n : Nat)
    (hc : isDigitChar c = false) : c ∉ natToChars n := by
  intro hmem
  have := natToChars_all_digits n
  rw [List.all_eq_true] at this
  have := this c hmem
  rw [hc] at this
  exact Bool.false_ne_true this

theorem splitOnChar_ne_nil (sep : Char) (l : List Char) : splitOnChar sep l ≠ [] := by
  induction l with
  | nil => simp [splitOnChar]
  | cons c cs ih =>
    simp only [splitOnChar]
    split
    · simp
    · split
      · simp
      · simp

theorem splitOnChar_of_not_mem (sep : Char) (l : List Char) (h : sep ∉ l) :
    splitOnChar sep l = [l] := by
  induction l with
  | nil => rfl
  | cons c cs ih =>
    have hc : ¬ c = sep := fun hcs => h (hcs ▸ List.mem_cons_self c cs)
    have hcs : sep ∉ cs := fun hm => h (List.mem_cons_of_mem c hm)
    simp only [splitOnChar, if_neg hc, ih hcs]

theorem two_le_length_splitOnChar (sep : Char) (l : List Char) (h : sep ∈ l) :
    2 ≤ (splitOnChar sep l).length := by
  induction l with
  | nil => cases h
  | cons c cs ih =>
    simp only [splitOnChar]
    by_cases hc : c = sep
    · rw [if_pos hc]
      have := splitOnChar_ne_nil sep cs
      have : 1 ≤ (splitOnChar sep cs).length := by
        cases hcs : splitOnChar sep cs with
        | nil => exact absurd hcs (splitOnChar_ne_nil sep cs)
        | cons t ts => simp
      simpa using this
    · rw [if_neg hc]
      have hmem : sep ∈ cs := by
        rcases List.mem_cons.mp h with h1 | h1
        · exact absurd h1.symm hc
        · exact h1
      have h2 := ih hmem
      cases hcs : splitOnChar sep cs with
      | nil => exact absurd hcs (splitOnChar_ne_nil sep cs)
      | cons t ts =>
        rw [hcs] at h2
        simpa using h2

theorem getLastD_irrel (l : List α) (d d' : α) (h : l ≠ []) :
    l.getLastD d = l.getLastD d' := by
  cases l with
  | nil => exact absurd rfl h
  | cons a as =>
    cases as with
    | nil => rfl
    | cons b bs =>
      have h1 : (a :: b :: bs).getLastD d = (b :: bs).getLastD a := by
        rw [List.getLastD_cons]
      have h2 : (a :: b :: bs).getLastD d' = (b :: bs).getLastD a := by
        rw [List.getLastD_cons]
      rw [h1, h2]

theorem getLastD_splitOnChar_append (sep : Char) (xs ys : List Char)
    (h : sep ∉ ys) : (splitOnChar sep (xs ++ sep :: ys)).getLastD [] = ys := by
  induction xs with
  | nil =>
    simp only [List.nil_append, splitOnChar, if_pos rfl,
      splitOnChar_of_not_mem sep ys h]
    simp [List.getLastD_cons]
  | cons c cs ih =>
    simp only [List.cons_append, splitOnChar]
    by_cases hc : c = sep
    · rw [if_pos hc]
      rw [List.getLastD_cons]
      rw [getLastD_irrel _ _ [] (splitOnChar_ne_nil sep _)]
      exact ih
    · rw [if_neg hc]
      have hmem : sep ∈ cs ++ sep :: ys := by
        simp
      cases hcs : splitOnChar sep (cs ++ sep :: ys) with
      | nil => exact absurd hcs (splitOnChar_ne_nil sep _)
      | cons t ts =>
        have h2 := two_le_length_splitOnChar sep _ hmem
        rw [hcs] at h2
        cases ts with
        | nil => simp at h2
        | cons u us =>
          have hfrom : (splitOnChar sep (cs ++ sep :: ys)).getLastD [] = ys := ih
          rw [hcs] at hfrom
          rw [List.getLastD_cons] at hfrom ⊢
          rw [List.getLastD_cons] at hfrom ⊢
          exact hfrom

/-! ## Helper lemmas for the claims -/

theorem probe_ports_true_iff (t : Nat → ConnectOutcome) (l : List Nat) :
    probe_ports t l = true ↔
      ∃ p ∈ l, t p = ConnectOutcome.established ∨ t p = ConnectOutcome.refused := by
  induction l with
  | nil => simp [probe_ports]
  | cons p rest ih =>
    have hcode : (connect_ex_code (t p) = 0 ∨ connect_ex_code (t p) = 10061) ↔
        (t p = ConnectOutcome.established ∨ t p = ConnectOutcome.refused) := by
      cases t p <;> decide
    simp only [probe_ports]
    by_cases h : connect_ex_code (t p) = 0 ∨ connect_ex_code (t p) = 10061
    · rw [if_pos h]
      simp only [true_iff]
      exact ⟨p, List.mem_cons_self p rest, hcode.mp h⟩
    · rw [if_neg h, ih]
      constructor
      · rintro ⟨q, hq, hsig⟩
        exact ⟨q, List.mem_cons_of_mem p hq, hsig⟩
      · rintro ⟨q, hq, hsig⟩
        rcases List.mem_cons.mp hq with rfl | hq'
        · exact absurd (hcode.mpr hsig) h
        · exact ⟨q, hq', hsig⟩

theorem not_live_outcome_iff (o : ConnectOutcome) :
    ¬(o = ConnectOutcome.established ∨ o = ConnectOutcome.refused) ↔
      (o = ConnectOutcome.timedOut ∨ o = ConnectOutcome.unreachable ∨
        o = ConnectOutcome.hostDown) := by
  cases o <;> decide

/-! ## The claims -/

/-- C9.  `scan_tcp_ports` on an empty port list returns an empty
sequence, and the list of ports for which a connect attempt was submitted
is empty as well: no work is spawned, for every ip, timeout, worker bound,
transport and completion order. -/
theorem scan_tcp_ports_empty (ip : List Char) (timeout : Rat) (workers : Nat)
    (isOpen : Nat → Bool) (completion : List Nat) :
    scan_tcp_ports ip [] timeout workers isOpen completion = ([], []) := rfl

/-- C1 (counterexample).  The claim quantifies over every non-empty port
list, but on a port list containing a duplicate the returned sequence can
itself contain a duplicate, so it is not *strictly* ascending: scanning
`[80, 80]` with both attempts succeeding returns `[80, 80]`.  The input is
in the claimed domain: the port list is non-empty and the completion order
is a permutation of it. -/
theorem scan_tcp_ports_dup_not_strict :
    ([80, 80] : List Nat) ≠ [] ∧ List.Perm ([80, 80] : List Nat) [80, 80] ∧
      ¬ List.Sorted (· < ·)
        (scan_tcp_ports "10.0.0.1".data [80, 80] 1 200 (fun _ => true) [80, 80]).1 := by
  refine ⟨by decide, by decide, by decide⟩

/-- C1 (amended).  For every IP, non-empty *duplicate-free* port list,
timeout, and worker bound, the sequence returned by `scan_tcp_ports` is
sorted in strictly ascending order, regardless of the order in which the
individual per-port connect attempts complete. -/
theorem scan_tcp_ports_sorted_of_nodup (ip : List Char) (ports : List Nat)
    (timeout : Rat) (workers : Nat) (isOpen : Nat → Bool) (completion : List Nat)
    (hne : ports ≠ []) (hnd : ports.Nodup) (hperm : completion.Perm ports) :
    List.Sorted (· < ·) (scan_tcp_ports ip ports timeout workers isOpen completion).1 := by
  have hempty : ports.isEmpty = false := by
    cases ports with
    | nil => exact absurd rfl hne
    | cons a as => rfl
  have hgoal : (scan_tcp_ports ip ports timeout workers isOpen completion).1 =
      List.insertionSort (· ≤ ·) (completion.filter isOpen) := by
    simp [scan_tcp_ports, hempty]
  rw [hgoal]
  have hsorted : List.Sorted (· ≤ ·)
      (List.insertionSort (· ≤ ·) (completion.filter isOpen)) :=
    List.sorted_insertionSort _ _
  have hnodup : (List.insertionSort (· ≤ ·) (completion.filter isOpen)).Nodup := by
    have h1 : completion.Nodup := hperm.symm.nodup hnd
    have h2 : (completion.filter isOpen).Nodup := h1.filter _
    exact (List.perm_insertionSort (· ≤ ·) (completion.filter isOpen)).symm.nodup h2
  exact hsorted.lt_of_le hnodup

/-- C1 (witness).  A concrete scan through the amended theorem: ports
`[22, 80]`, completion order `[80, 22]`, both open. -/
theorem scan_tcp_ports_sorted_witness :
    List.Sorted (· < ·)
      (scan_tcp_ports "10.0.0.1".data [22, 80] 1 200 (fun _ => true) [80, 22]).1 :=
  scan_tcp_ports_sorted_of_nodup _ _ _ _ _ _ (by decide) (by decide) (by decide)

/-- C4.  `is_host_up` returns true exactly when some probe port in
`[80, 443, 22, 445, 3389]` has a connect outcome that is established or
actively refused (the source's early return fires at the first such
port), and returns false exactly when every one of the five probe ports
times out or yields an unreachable / host-down signal. -/
theorem is_host_up_characterization (t : Nat → ConnectOutcome) :
    (is_host_up t = true ↔
      ∃ p ∈ common_ports,
        t p = ConnectOutcome.established ∨ t p = ConnectOutcome.refused) ∧
    (is_host_up t = false ↔
      ∀ p ∈ common_ports,
        t p = ConnectOutcome.timedOut ∨ t p = ConnectOutcome.unreachable ∨
          t p = ConnectOutcome.hostDown) := by
  have h1 : is_host_up t = true ↔
      ∃ p ∈ common_ports,
        t p = ConnectOutcome.established ∨ t p = ConnectOutcome.refused :=
    probe_ports_true_iff t common_ports
  refine ⟨h1, ?_⟩
  have h2 : (is_host_up t = false) ↔ ¬(is_host_up t = true) := by
    cases h : is_host_up t <;> simp
  rw [h2, h1]
  push_neg
  constructor
  · intro h p hp
    exact (not_live_outcome_iff (t p)).mp (not_or.mpr (h p hp))
  · intro h p hp
    exact not_or.mp ((not_live_outcome_iff (t p)).mpr (h p hp))

/-- C6.  `parse_ports` deduplicates and sorts comma-form input and
normalizes reversed dash ranges, on the four spec examples. -/
theorem parse_ports_examples :
    parse_ports "22,80,443".data = some [22, 80, 443] ∧
    parse_ports "443,22,22".data = some [22, 443] ∧
    parse_ports "10-12".data = some [10, 11, 12] ∧
    parse_ports "12-10".data = some [10, 11, 12] := by
  refine ⟨by decide, by decide, by decide, by decide⟩

/-- C10.  `nmap_service_and_os` on an empty open-port list returns
`(None, [])` and never invokes the external nmap binary (the invocation
flag is `false`), for every `nmap_path` — including one where nmap is
installed — and every possible stdout. -/
theorem nmap_service_and_os_empty_ports (nmap_path : Option (List Char))
    (run_stdout : Option (List Char)) :
    nmap_service_and_os [] nmap_path run_stdout = ((none, []), false) := rfl

/-- C5.  A target for which the liveness probe returns false produces no
host record: its IP does not occur among the IPs of the report produced by
the main per-target loop. -/
theorem process_targets_down_host_omitted (targets : List (List Char))
    (validIp : List Char → Bool) (up : List Char → Bool)
    (hostnameOf : List Char → Option (List Char))
    (scanOf : List Char → List Nat)
    (macOf : List Char → Option (List Char))
    (fingerprint : List Char → List Nat →
      Option (List Char) × List (Nat × List Char))
    (ip : List Char) (hdown : up ip = false) :
    ip ∉ (process_targets targets validIp up hostnameOf scanOf macOf
      fingerprint).map HostInfo.ip := by
  induction targets with
  | nil => simp [process_targets]
  | cons t rest ih =>
    simp only [process_targets]
    by_cases hv : validIp t = false
    · rw [if_pos hv]; exact ih
    · rw [if_neg hv]
      by_cases hu : up t = false
      · rw [if_pos hu]; exact ih
      · rw [if_neg hu]
        intro hmem
        rcases List.mem_cons.mp hmem with h1 | h1
        · have h1' : ip = t := h1
          exact hu (h1' ▸ hdown)
        · exact ih h1

/-- C5 (witness).  A concrete main loop over two targets where the second
target fails the liveness probe: its IP is absent from the report. -/
theorem process_targets_down_host_omitted_witness :
    "10.0.0.2".data ∉
      (process_targets ["10.0.0.1".data, "10.0.0.2".data] (fun _ => true)
        (fun s => s == "10.0.0.1".data) (fun _ => none) (fun _ => [80])
        (fun _ => none) (fun _ _ => (none, []))).map HostInfo.ip :=
  process_targets_down_host_omitted _ _ _ _ _ _ _ _ (by decide)

theorem parseTokens_none (ts : List (List Char))
    (h : ∃ t ∈ ts, (pyStrip t).isEmpty = false ∧ parseInt (pyStrip t) = none) :
    parseTokens ts = none := by
  induction ts with
  | nil =>
    rcases h with ⟨t, ht, _⟩
    cases ht
  | cons t ts ih =>
    rcases h with ⟨u, hu, hne, hpi⟩
    rcases List.mem_cons.mp hu with rfl | hu'
    · simp [parseTokens, hne, hpi]
    · have hrec := ih ⟨u, hu', hne, hpi⟩
      by_cases he : (pyStrip t).isEmpty = true
      · simp [parseTokens, he, hrec]
      · have he' : (pyStrip t).isEmpty = false := by
          simpa using he
        cases hp : parseInt (pyStrip t) <;> simp [parseTokens, he', hrec, hp]

/-- C2 (counterexample).  The claim says `expand_range` fails when the
start octet exceeds the end value; the source performs no such check and
returns the empty address list instead of raising. -/
theorem expand_range_reversed_no_error :
    expand_range "10.0.0.9-2".data = some [] ∧
      expand_range "10.0.0.9-2".data ≠ none := by
  refine ⟨by decide, by decide⟩

/-- C2 (amended).  `expand_range` performs no range validation: whenever
the spec splits into two parts around `'-'` and both the last octet of the
left part and the right part parse as integers with start > end, it
returns the empty address list rather than failing; and octets or end
values outside [0,255] are accepted, producing the corresponding
out-of-range address strings (witnessed by `"1.2.3.300-301"`).  The only
failures are a spec that does not split into exactly two parts around
`'-'` or a bound that does not parse as an integer. -/
theorem expand_range_no_validation :
    (∀ (spec left right : List Char) (s e : Nat),
      splitOnChar '-' spec = [left, right] →
      parseNat ((splitOnChar '.' left).getLastD []) = some s →
      parseNat right = some e →
      e < s →
      expand_range spec = some []) ∧
    expand_range "1.2.3.300-301".data =
      some ["1.2.3.300".data, "1.2.3.301".data] := by
  constructor
  · intro spec left right s e hsplit hlast hr hlt
    have hcount : e + 1 - s = 0 := by omega
    simp only [expand_range, hsplit]
    rw [hlast, hr]
    simp [hcount]
  · decide

/-- C2 (witness).  The general part of the amended theorem applied to the
concrete reversed range `"192.168.0.5-3"`. -/
theorem expand_range_no_validation_witness :
    expand_range "192.168.0.5-3".data = some [] :=
  expand_range_no_validation.1 "192.168.0.5-3".data "192.168.0.5".data "3".data
    5 3 (by decide) (by decide) (by decide) (by decide)

/-- C3 (counterexample).  The claim says `parse_ports` fails when a
resulting port lies outside [1,65535]; the source has no range check and
happily returns `[70000]`. -/
theorem parse_ports_out_of_range_ok :
    parse_ports "70000".data = some [70000] ∧ ¬((70000 : Int) ≤ 65535) := by
  refine ⟨by decide, by decide⟩

/-- C3 (amended).  `parse_ports` fails (a `ValueError` escapes, modelled
as `none`) when the spec contains a non-integer token — in the comma form
when some non-empty stripped token does not parse, in the dash form when
either bound does not parse, and in the single form when the whole spec
does not parse — but it performs no range validation: a successful result
may contain integers outside [1,65535], e.g. `parse_ports "70000" =
[70000]`. -/
theorem parse_ports_no_range_check :
    (∀ s : List Char, (pyStrip s).contains ',' = true →
      (∃ t ∈ splitOnChar ',' (pyStrip s),
        (pyStrip t).isEmpty = false ∧ parseInt (pyStrip t) = none) →
      parse_ports s = none) ∧
    (∀ s a b : List Char, (pyStrip s).contains ',' = false →
      (pyStrip s).contains '-' = true →
      splitOnChar '-' (pyStrip s) = [a, b] →
      (parseInt (pyStrip a) = none ∨ parseInt (pyStrip b) = none) →
      parse_ports s = none) ∧
    (∀ s : List Char, (pyStrip s).contains ',' = false →
      (pyStrip s).contains '-' = false →
      parseInt (pyStrip s) = none →
      parse_ports s = none) ∧
    parse_ports "70000".data = some [70000] := by
  refine ⟨?_, ?_, ?_, by decide⟩
  · intro s hc hex
    have hc' : ',' ∈ pyStrip s := by simpa using hc
    simp [parse_ports, hc', parseTokens_none _ hex]
  · intro s a b hc hd hsplit hor
    have hc' : ',' ∉ pyStrip s := by simpa using hc
    have hd' : '-' ∈ pyStrip s := by simpa using hd
    rcases hor with ha | hb
    · simp [parse_ports, hc', hd', hsplit, ha]
    · cases hpa : parseInt (pyStrip a) <;>
        simp [parse_ports, hc', hd', hsplit, hpa, hb]
  · intro s hc hd hpi
    have hc' : ',' ∉ pyStrip s := by simpa using hc
    have hd' : '-' ∉ pyStrip s := by simpa using hd
    simp [parse_ports, hc', hd', hpi]

/-- C3 (witness).  The comma-form part of the amended theorem applied to
the concrete spec `"1,x"`, whose second token is not an integer. -/
theorem parse_ports_no_range_check_witness :
    parse_ports "1,x".data = none :=
  parse_ports_no_range_check.1 "1,x".data (by decide)
    ⟨"x".data, by decide, by decide, by decide⟩

theorem isPrefixOf_append_self (u t : List Char) : u.isPrefixOf (u ++ t) = true := by
  induction u with
  | nil => simp [List.isPrefixOf]
  | cons c cs ih => simp [List.isPrefixOf, ih]

theorem reSearch_none_of_not_contains (lit : List Char) (hay : List Char)
    (h : containsSeq lit hay = false) : reSearchLitWsRest lit hay = none := by
  induction hay with
  | nil => rfl
  | cons c cs ih =>
    simp only [containsSeq, Bool.or_eq_false_iff] at h
    simp [reSearchLitWsRest, h.1, ih h.2]

theorem process_targets_fingerprint_degraded (targets : List (List Char))
    (validIp up : List Char → Bool)
    (hostnameOf : List Char → Option (List Char))
    (scanOf : List Char → List Nat)
    (macOf : List Char → Option (List Char))
    (fingerprint : List Char → List Nat →
      Option (List Char) × List (Nat × List Char))
    (hf : ∀ ip op, fingerprint ip op =
      ((none : Option (List Char)), ([] : List (Nat × List Char)))) :
    ∀ r ∈ process_targets targets validIp up hostnameOf scanOf macOf fingerprint,
      r.os = none ∧ ∀ pi ∈ r.open_ports, pi.service = none := by
  induction targets with
  | nil => simp [process_targets]
  | cons t rest ih =>
    intro r hr
    simp only [process_targets] at hr
    by_cases hv : validIp t = false
    · rw [if_pos hv] at hr
      exact ih r hr
    · rw [if_neg hv] at hr
      by_cases hu : up t = false
      · rw [if_pos hu] at hr
        exact ih r hr
      · rw [if_neg hu] at hr
        rcases List.mem_cons.mp hr with rfl | hr'
        · constructor
          · show (fingerprint t (scanOf t)).1 = none
            rw [hf t (scanOf t)]
          · intro pi hpi
            simp only [List.mem_map] at hpi
            rcases hpi with ⟨port, hport, rfl⟩
            show find_service (fingerprint t (scanOf t)).2 port = none
            rw [hf t (scanOf t)]
            rfl
        · exact ih r hr'

theorem process_targets_live_target_reported (targets : List (List Char))
    (validIp up : List Char → Bool)
    (hostnameOf : List Char → Option (List Char))
    (scanOf : List Char → List Nat)
    (macOf : List Char → Option (List Char))
    (fingerprint : List Char → List Nat →
      Option (List Char) × List (Nat × List Char))
    (ip : List Char) (hmem : ip ∈ targets)
    (hv : validIp ip = true) (hu : up ip = true) :
    ip ∈ (process_targets targets validIp up hostnameOf scanOf macOf
      fingerprint).map HostInfo.ip := by
  induction targets with
  | nil => cases hmem
  | cons t rest ih =>
    simp only [process_targets]
    rcases List.mem_cons.mp hmem with rfl | hmem'
    · rw [if_neg (by simp [hv]), if_neg (by simp [hu])]
      exact List.mem_cons_self _ _
    · by_cases hvt : validIp t = false
      · rw [if_pos hvt]
        exact ih hmem'
      · rw [if_neg hvt]
        by_cases hut : up t = false
        · rw [if_pos hut]
          exact ih hmem'
        · rw [if_neg hut]
          exact List.mem_cons_of_mem _ (ih hmem')

/-- C7.  For every dash-range spec `"A.B.C.S-E"` whose octets `A`, `B`,
`C`, `S` are in [0,255] and with `S ≤ E ≤ 255`, `expand_range` succeeds
and returns exactly `E - S + 1` address strings, each extending the
prefix `"A.B.C."`, whose last octets are exactly `S, S+1, ..., E` in
strictly ascending numeric order.  The spec string is characterised by
how the source decomposes it: it splits around `'-'` into a left part and
a right part, and the left part splits around `'.'` into the three prefix
octets and the start value. -/
theorem expand_range_valid_range
    (spec left right sdig : List Char) (A B C s e : Nat)
    (hsplit : splitOnChar '-' spec = [left, right])
    (hleft : splitOnChar '.' left = [natToChars A, natToChars B, natToChars C, sdig])
    (hsd : parseNat sdig = some s)
    (hrt : parseNat right = some e)
    (hA : A ≤ 255) (hB : B ≤ 255) (hC : C ≤ 255)
    (hse : s ≤ e) (he255 : e ≤ 255) :
    expand_range spec ≠ none ∧
    ((expand_range spec).getD []).length = e - s + 1 ∧
    ((expand_range spec).getD []).all
      (fun addr =>
        (pyJoin ['.'] [natToChars A, natToChars B, natToChars C] ++
          ['.']).isPrefixOf addr) = true ∧
    ((expand_range spec).getD []).map lastOctet =
      (List.range' s (e + 1 - s)).map some := by
  have hlastD : ([natToChars A, natToChars B, natToChars C, sdig] :
      List (List Char)).getLastD [] = sdig := rfl
  have hdrop : ([natToChars A, natToChars B, natToChars C, sdig] :
      List (List Char)).dropLast = [natToChars A, natToChars B, natToChars C] := rfl
  have hval : expand_range spec =
      some ((List.range' s (e + 1 - s)).map
        (fun i => pyJoin ['.'] [natToChars A, natToChars B, natToChars C] ++
          '.' :: natToChars i)) := by
    simp only [expand_range, hsplit, hleft, hdrop]
    rw [hlastD, hsd, hrt]
  refine ⟨?_, ?_, ?_, ?_⟩
  · rw [hval]
    simp
  · rw [hval]
    simp only [Option.getD_some, List.length_map, List.length_range']
    omega
  · rw [hval]
    simp only [Option.getD_some]
    rw [List.all_eq_true]
    intro addr haddr
    simp only [List.mem_map] at haddr
    obtain ⟨i, hi, rfl⟩ := haddr
    have hsplitaddr :
        pyJoin ['.'] [natToChars A, natToChars B, natToChars C] ++
          '.' :: natToChars i =
        (pyJoin ['.'] [natToChars A, natToChars B, natToChars C] ++ ['.']) ++
          natToChars i := by
      simp
    rw [hsplitaddr]
    exact isPrefixOf_append_self _ _
  · rw [hval]
    simp only [Option.getD_some, List.map_map]
    apply List.map_congr_left
    intro i hi
    show lastOctet (pyJoin ['.'] [natToChars A, natToChars B, natToChars C] ++
      '.' :: natToChars i) = some i
    unfold lastOctet
    rw [getLastD_splitOnChar_append '.' _ _
      (not_mem_natToChars_of_not_digit '.' i (by decide))]
    exact parseNat_natToChars i

/-- C7 (witness).  The valid-range theorem applied to the concrete spec
`"192.168.0.1-3"`. -/
theorem expand_range_valid_range_witness :
    expand_range "192.168.0.1-3".data ≠ none ∧
    ((expand_range "192.168.0.1-3".data).getD []).length = 3 - 1 + 1 ∧
    ((expand_range "192.168.0.1-3".data).getD []).all
      (fun addr =>
        (pyJoin ['.'] [natToChars 192, natToChars 168, natToChars 0] ++
          ['.']).isPrefixOf addr) = true ∧
    ((expand_range "192.168.0.1-3".data).getD []).map lastOctet =
      (List.range' 1 (3 + 1 - 1)).map some :=
  expand_range_valid_range "192.168.0.1-3".data "192.168.0.1".data "3".data
    "1".data 192 168 0 1 3 (by decide) (by decide) (by decide) (by decide)
    (by decide) (by decide) (by decide) (by decide) (by decide)

/-- C8.  When the fingerprint collaborator is unavailable — the nmap
binary is absent, the invocation raises, or its output is unparseable —
the fingerprint call yields `(none, [])` for every open-port list, every
host record in the report keeps `os = none` and `service = none` on every
open port, and a live, syntactically valid target still produces a record
in the report. -/
theorem nmap_unavailable_degrades (nmap_path run_stdout : Option (List Char))
    (h : nmap_unavailable nmap_path run_stdout) :
    (∀ open_ports,
      (nmap_service_and_os open_ports nmap_path run_stdout).1 = (none, [])) ∧
    ∀ (targets : List (List Char)) (validIp up : List Char → Bool)
      (hostnameOf : List Char → Option (List Char))
      (scanOf : List Char → List Nat)
      (macOf : List Char → Option (List Char)),
      (∀ r ∈ process_targets targets validIp up hostnameOf scanOf macOf
          (fun ip op => (nmap_service_and_os op nmap_path run_stdout).1),
        r.os = none ∧ ∀ pi ∈ r.open_ports, pi.service = none) ∧
      ∀ ip, ip ∈ targets → validIp ip = true → up ip = true →
        ip ∈ (process_targets targets validIp up hostnameOf scanOf macOf
          (fun ip op =>
            (nmap_service_and_os op nmap_path run_stdout).1)).map HostInfo.ip := by
  have hmain : ∀ open_ports,
      (nmap_service_and_os open_ports nmap_path run_stdout).1 = (none, []) := by
    intro open_ports
    by_cases hop : open_ports.isEmpty = true
    · simp [nmap_service_and_os, hop]
    · have hop' : open_ports.isEmpty = false := by simpa using hop
      rcases h with hpath | hrun | hout
      · simp [nmap_service_and_os, hop', hpath]
      · cases hp : nmap_path with
        | none => simp [nmap_service_and_os, hop']
        | some p => simp [nmap_service_and_os, hop', hrun]
      · cases hp : nmap_path with
        | none => simp [nmap_service_and_os, hop']
        | some p =>
          cases hr : run_stdout with
          | none => simp [nmap_service_and_os, hop']
          | some out =>
            obtain ⟨hos, hrunning, hlines⟩ := hout out hr
            have hs1 := reSearch_none_of_not_contains _ out hos
            have hs2 := reSearch_none_of_not_contains _ out hrunning
            have hsvc : (splitlines out).filterMap
                (fun line => matchServiceLine (pyStrip line)) = [] := by
              rw [List.filterMap_eq_nil_iff]
              intro line hline
              exact Option.isNone_iff_eq_none.mp
                ((List.all_eq_true.mp hlines) line hline)
            simp [nmap_service_and_os, hop', hs1, hs2, hsvc]
  refine ⟨hmain, ?_⟩
  intro targets validIp up hostnameOf scanOf macOf
  constructor
  · exact process_targets_fingerprint_degraded targets validIp up hostnameOf
      scanOf macOf _ (fun ip op => hmain op)
  · intro ip hmem hv hu
    exact process_targets_live_target_reported targets validIp up hostnameOf
      scanOf macOf _ ip hmem hv hu

/-- C8 (witness).  Concrete unavailability (no nmap binary): the
fingerprint call on open port 80 yields `(none, [])`, and a live valid
target still appears in the report. -/
theorem nmap_unavailable_degrades_witness :
    (nmap_service_and_os [80] none none).1 = (none, []) ∧
    "10.0.0.7".data ∈
      (process_targets ["10.0.0.7".data] (fun _ => true) (fun _ => true)
        (fun _ => none) (fun _ => [80]) (fun _ => none)
        (fun _ op => (nmap_service_and_os op none none).1)).map HostInfo.ip := by
  have h := nmap_unavailable_degrades none none (Or.inl rfl)
  exact ⟨h.1 [80],
    (h.2 ["10.0.0.7".data] (fun _ => true) (fun _ => true) (fun _ => none)
      (fun _ => [80]) (fun _ => none)).2 "10.0.0.7".data
      (List.mem_cons_self _ _) rfl rfl⟩

end Scanner
